import Mathlib

/-!
Shallow embedding of the maildotapp package (mail.go).

Modelling conventions:
- Go byte slices and streams are `List Nat` (one `Nat` per byte).
- Go strings (paths, URLs, row identifiers) are `List Char`.
- Go maps are association lists; an insert conses at the front and a lookup
  takes the first hit, so the last writer wins, as for a Go map.
- Fallible operations return `Option` or `Except`; a Go runtime panic is an
  explicit error constructor, documented where it occurs.
-/

/-! ## Framing codec: stripEmlx (mail.go) -/

/-- Models the dropCR step of bufio.ScanLines: a single trailing carriage
return (byte 13) is removed from the scanned token. -/
def dropCR (l : List Nat) : List Nat :=
  if l.getLast? = some 13 then l.dropLast else l

/-- Models scanner.Bytes() after the first scanner.Scan() of bufio.Scanner
with the default ScanLines split: the bytes before the first newline
(byte 10), with a trailing carriage return removed. -/
def scanFirstLine (s : List Nat) : List Nat :=
  dropCR (s.takeWhile (fun b => b != 10))

/-- Models bytes.Trim(original, " "): space bytes (32) are removed from both
ends of the token. -/
def trimSpaces (l : List Nat) : List Nat :=
  ((l.dropWhile (fun b => b == 32)).reverse.dropWhile (fun b => b == 32)).reverse

/-- Accumulates the decimal value of a run of ASCII digit bytes; any
non-digit byte makes the parse fail. -/
def digitsValAux : List Nat → Nat → Option Nat
  | [], acc => some acc
  | b :: rest, acc =>
      if 48 ≤ b ∧ b ≤ 57 then digitsValAux rest (acc * 10 + (b - 48)) else none

/-- Models strconv.Atoi on a byte string: an optional sign (43 is the plus
byte, 45 the minus byte) followed by at least one decimal digit, failing on
an empty string, on any non-digit byte, and on values outside the 64-bit
signed integer range (Go int on a 64-bit platform). -/
def goAtoi (s : List Nat) : Option Int :=
  match s with
  | [] => none
  | [43] => none
  | [45] => none
  | 43 :: rest =>
      (digitsValAux rest 0).bind (fun v => if v ≤ 2 ^ 63 - 1 then some (v : Int) else none)
  | 45 :: rest =>
      (digitsValAux rest 0).bind (fun v => if v ≤ 2 ^ 63 then some (-(v : Int)) else none)
  | _ =>
      (digitsValAux s 0).bind (fun v => if v ≤ 2 ^ 63 - 1 then some (v : Int) else none)

/-- Result of stripEmlx. Go returns the pair (io.Reader, error); the two
error branches of the source return the original ReadSeeker r itself
together with a non-nil error, so those constructors carry the original
stream. -/
inductive StripResult where
  | stripped (payload : List Nat)
  | fallbackParseError (original : List Nat)
  | fallbackNoFirstLine (original : List Nat)
  deriving DecidableEq

/-- Models stripEmlx (mail.go): scan the first line; trim spaces; parse the
byte count with strconv.Atoi; on success Seek to len(original)+1 from the
start and wrap the stream in io.LimitReader(r, byteNum), so the payload is
at most byteNum bytes starting at that offset (a limit that is negative or
exceeds the remaining bytes simply truncates, as LimitReader and Read at
EOF do); on an Atoi error return the stream itself with the error; when
Scan finds no first line (empty input) return the stream itself with the
couldnt-find-the-first-line error. -/
def stripEmlx (s : List Nat) : StripResult :=
  if s = [] then .fallbackNoFirstLine s
  else
    let original := scanFirstLine s
    match goAtoi (trimSpaces original) with
    | none => .fallbackParseError s
    | some n => .stripped ((s.drop (original.length + 1)).take n.toNat)

/-! ## Row identifier sharding: emlPathFromROWID (mail.go) -/

/-- Models emlPathFromROWID (mail.go): the Sprintf
"%s/%s/%s/Messages/%s" over ROWID[2], ROWID[1], ROWID[0] and ROWID.
Go indexes the string without a length guard, so an identifier shorter
than 3 bytes panics with index out of range, modelled as `none`. -/
def emlPathFromROWID (rowid : List Char) : Option (List Char) :=
  match rowid with
  | c0 :: c1 :: c2 :: _ =>
      some (c2 :: '/' :: c1 :: '/' :: c0 :: ("/Messages/".data ++ rowid))
  | _ => none

/-! ## String helpers from the Go standard library -/

/-- Models strings.HasPrefix. -/
def goHasPrefix (s pre : List Char) : Bool :=
  pre.isPrefixOf s

/-- Left-to-right non-overlapping replacement of a nonempty pattern, the
core of strings.Replace with n = -1. The fuel argument only serves to make
the recursion structural: every step consumes at least one character of s,
so any fuel of at least s.length computes the untruncated replacement, and
goReplace below passes exactly s.length. -/
def goReplaceFuel (old new : List Char) : Nat → List Char → List Char
  | _, [] => []
  | 0, s => s
  | fuel + 1, c :: rest =>
    if old ≠ [] ∧ old.isPrefixOf (c :: rest) then
      new ++ goReplaceFuel old new fuel ((c :: rest).drop old.length)
    else
      c :: goReplaceFuel old new fuel rest

/-- Models strings.Replace(s, old, new, -1): every non-overlapping
occurrence of old, scanned left to right, is replaced by new; for the empty
pattern Go inserts new before every character and once at the end. -/
def goReplace (s old new : List Char) : List Char :=
  if old = [] then new ++ s.foldr (fun c acc => c :: (new ++ acc)) []
  else goReplaceFuel old new s.length s

/-! ## Path resolution: filePathToURL and gatherMboxPaths (mail.go) -/

/-- Models filePathToURL (mail.go): remove every occurrence of the root
path, then every occurrence of ".mbox". -/
def filePathToURL (rootPath p : List Char) : List Char :=
  goReplace (goReplace p rootPath []) ".mbox".data []

/-- A directory tree: the argument of the filepath.WalkDir traversal.
WalkDir visits the entries of a directory in lexical order; this model
visits children in list order, so trees are written with their children
sorted by name. -/
inductive FSEntry where
  | file (name : List Char)
  | dir (name : List Char) (children : List FSEntry)

/-- Models os.DirEntry.Name(). -/
def FSEntry.entryName : FSEntry → List Char
  | .file n => n
  | .dir n _ => n

/-- Models the os.Stat(filepath.Join(path, "Info.plist")) existence check:
the directory has an entry (of either kind) with the given name. -/
def hasEntryNamed (children : List FSEntry) (target : List Char) : Bool :=
  children.any (fun e => e.entryName == target)

/-- The two mutable maps of gatherMboxPaths: paths (the result map) and
mboxPaths (the set of directories marked by an Info.plist). Go iterates a
map in unspecified order; the model keeps mboxPaths as a list in marking
order and iterates it in that order. -/
structure WalkState where
  paths : List (List Char × List Char)
  mboxPaths : List (List Char)
  deriving DecidableEq

/-- Go map write m[k] = v: the new binding shadows any older one. -/
def mapInsert (m : List (List Char × List Char)) (k v : List Char) :
    List (List Char × List Char) :=
  (k, v) :: m

/-- Go map read m[k]: the most recent binding wins. -/
def mapLookup (m : List (List Char × List Char)) (k : List Char) : Option (List Char) :=
  match m with
  | [] => none
  | (k1, v) :: rest => if k1 = k then some v else mapLookup rest k

/-- Models the loop over mboxPaths inside the WalkDir callback: for every
marked directory p, if strings.HasPrefix(path, p) and removing every
occurrence of the path separator followed by d.Name() from path yields p,
record paths[filePathToURL(rootPath, p)] = path + "/Data". -/
def recordMatches (rootPath dirPath dirName : List Char) :
    List (List Char) → List (List Char × List Char) → List (List Char × List Char)
  | [], paths => paths
  | p :: rest, paths =>
      recordMatches rootPath dirPath dirName rest
        (if goHasPrefix dirPath p ∧ goReplace dirPath ('/' :: dirName) [] = p then
          mapInsert paths (filePathToURL rootPath p) (dirPath ++ '/' :: "Data".data)
        else paths)

/-- Models filepath.Join(parent, name) for the paths WalkDir builds: a
single trailing separator on the parent is collapsed. -/
def childPath (parent childName : List Char) : List Char :=
  if parent.getLast? = some '/' then parent ++ childName else parent ++ '/' :: childName

/-- Models one WalkDir callback invocation on a directory that is not
skipped: the callback first runs the mboxPaths matching loop, then marks
the directory if an os.Stat finds an Info.plist entry inside it. -/
def visitDir (rootPath dirPath dirName : List Char) (children : List FSEntry)
    (st : WalkState) : WalkState :=
  let st1 : WalkState := ⟨recordMatches rootPath dirPath dirName st.mboxPaths st.paths, st.mboxPaths⟩
  if hasEntryNamed children "Info.plist".data then
    ⟨st1.paths, st1.mboxPaths ++ [dirPath]⟩
  else st1

/-- Models the filepath.WalkDir traversal as a depth-first preorder
worklist: each step pops one (path, entry) pair; files are ignored (the
callback body is guarded by d.IsDir()); a directory named "Data" or
"MailData" returns filepath.SkipDir before anything else, so its children
are not pushed; any other directory is visited by visitDir and its
children, paired with their joined paths, are pushed in front of the
remaining work. The fuel argument only makes the recursion structural:
every step pops exactly one entry and pushes the popped entry's immediate
children, so any fuel of at least the total number of entries in the trees
on the worklist completes the traversal, and gatherMboxPaths passes
exactly the entry count of the root tree. -/
def walkWork (rootPath : List Char) : Nat → List (List Char × FSEntry) → WalkState → WalkState
  | _, [], st => st
  | 0, _, st => st
  | fuel + 1, (_, .file _) :: rest, st => walkWork rootPath fuel rest st
  | fuel + 1, (dirPath, .dir nm children) :: rest, st =>
    if nm = "Data".data ∨ nm = "MailData".data then walkWork rootPath fuel rest st
    else
      walkWork rootPath fuel
        (children.map (fun c => (childPath dirPath c.entryName, c)) ++ rest)
        (visitDir rootPath dirPath nm children st)

mutual
/-- Number of filesystem entries in a tree, the fuel bound of walkWork. -/
def FSEntry.entryCount : FSEntry → Nat
  | .file _ => 1
  | .dir _ children => 1 + entryCountList children

/-- Number of filesystem entries in a forest. -/
def entryCountList : List FSEntry → Nat
  | [] => 0
  | e :: rest => e.entryCount + entryCountList rest
end

/-- Models gatherMboxPaths (mail.go) applied to a synthetic root: WalkDir
starting at rootPath (the walker is invoked on a root string that ends in a
separator), with both maps empty, returning the paths map. -/
def gatherMboxPaths (rootPath : List Char) (root : FSEntry) : List (List Char × List Char) :=
  (walkWork rootPath root.entryCount [(rootPath, root)] ⟨[], []⟩).paths

/-! ## URL handling in Mailboxes.Query -/

/-- Finds the text after the first "://" scheme separator, if any. -/
def findSchemeSep : List Char → Option (List Char)
  | ':' :: '/' :: '/' :: rest => some rest
  | _ :: rest => findSchemeSep rest
  | [] => none

/-- Models MailboxURL.Host + MailboxURL.Path after url.Parse(u) for the
URLs this package handles (scheme://host/path, as in imap://uuid/name,
without userinfo, port, query or fragment): the text after "://", or the
whole string when there is no scheme separator (then Host is empty and the
string is the Path). -/
def hostPlusPath (u : List Char) : List Char :=
  match findSchemeSep u with
  | some rest => rest
  | none => u

/-! ## Data model: Account, Mailbox, MailboxQuery, Row, Message, Mailboxes -/

/-- Models the Account struct (mail.go). -/
structure Account where
  name : List Char
  uuid : List Char
  deriving DecidableEq

/-- Models the Mailbox struct (mail.go); the Account field is a pointer,
hence the Option. -/
structure Mailbox where
  name : List Char
  account : Option Account
  deriving DecidableEq

/-- Models Mailbox.URL(): Sprintf("imap://%s/%s", UUID, Name). Go would
panic on a nil Account pointer; the code only calls URL() on mailboxes for
which IsEmpty() is false, and the model substitutes an empty UUID there. -/
def Mailbox.URL (m : Mailbox) : List Char :=
  "imap://".data ++ (m.account.map Account.uuid).getD [] ++ '/' :: m.name

/-- Models Mailbox.IsEmpty(): nil account or empty name. -/
def Mailbox.IsEmpty (m : Mailbox) : Bool :=
  m.account.isNone || m.name == []

/-- Models the MailboxQuery struct (mail.go); BatchResults is a Go int. -/
structure MailboxQuery where
  mailbox : Mailbox
  batchResults : Int
  deriving DecidableEq

/-- One row of the messages/mailboxes join of the Envelope Index: the
selected columns m.ROWID (scanned into a Go string) and mbx.url, plus the
m.date_received column the ORDER BY clause sorts on. -/
structure Row where
  rowid : List Char
  url : List Char
  dateReceived : Int
  deriving DecidableEq

/-- Models the Message struct (mail.go). -/
structure Message where
  pathWithoutExtension : List Char
  deriving DecidableEq

/-- Models the Mailboxes struct (mail.go); the sql.DB handle is modelled by
the list of rows the getMessages join would produce. -/
structure Mailboxes where
  byAccountName : List (List Char × List (List Char × Mailbox))
  url2path : List (List Char × List Char)
  db : List Row
  deriving DecidableEq

/-! ## The SQL collaborator, modelled at its interface -/

/-- Descending order on date_received: the ORDER BY m.date_received DESC
contract of the index store. -/
def rowDescByDate (a b : Row) : Prop :=
  b.dateReceived ≤ a.dateReceived

instance : DecidableRel rowDescByDate :=
  fun a b => inferInstanceAs (Decidable (b.dateReceived ≤ a.dateReceived))

instance : IsTotal Row rowDescByDate :=
  ⟨fun a b => le_total b.dateReceived a.dateReceived⟩

instance : IsTrans Row rowDescByDate :=
  ⟨fun _ _ _ h1 h2 => le_trans h2 h1⟩

/-- Models the SQL engine executing the query text Mailboxes.Query builds
from the getMessages constant: an optional WHERE mbx.url = ? filter, then
ORDER BY m.date_received DESC, then an optional LIMIT ? OFFSET ? page.
The engine is an external collaborator; it is modelled at its interface
(spec section 6) by an executable sort over the row list. -/
def sqlGetMessages (db : List Row) (filter : Option (List Char))
    (page : Option (Int × Int)) : List Row :=
  let filtered := match filter with
    | some u => db.filter (fun r => r.url == u)
    | none => db
  let ordered := List.insertionSort rowDescByDate filtered
  match page with
  | some (limit, offset) => (ordered.drop offset.toNat).take limit.toNat
  | none => ordered

/-! ## Mailboxes.Query (mail.go) -/

/-- Errors a query invocation can end with. unresolvedMailboxPath is the
fmt.Errorf("unmatched mailbox path: %s", relativePath) return;
rowIdIndexOutOfRange models the Go runtime panic inside emlPathFromROWID
when a scanned ROWID has fewer than 3 bytes. -/
inductive QueryError where
  | unresolvedMailboxPath (relativePath : List Char)
  | rowIdIndexOutOfRange
  deriving DecidableEq

/-- The ([]Message, error) pair one invocation of the query closure
returns: exactly one of the two is meaningful, as in the source, which
returns (nil, err) on every error path. -/
inductive QueryOutcome where
  | ok (msgs : List Message)
  | error (e : QueryError)
  deriving DecidableEq

/-- Models the rows.Next() loop of the closure returned by Mailboxes.Query:
each row's URL is reduced to Host + Path and looked up in url2path; a miss
aborts the whole call with the unmatched-mailbox-path error; a hit appends
Message{pathWithoutExtension: path.Join(basePath, emlPathFromROWID(ROWID))}
(the Join modelled as a separator-joined concatenation). -/
def resolveRows (url2path : List (List Char × List Char)) :
    List Row → QueryOutcome
  | [] => .ok []
  | r :: rest =>
    match mapLookup url2path (hostPlusPath r.url) with
    | none => .error (.unresolvedMailboxPath (hostPlusPath r.url))
    | some basePath =>
      match emlPathFromROWID r.rowid with
      | none => .error .rowIdIndexOutOfRange
      | some suffixPath =>
        match resolveRows url2path rest with
        | .error e => .error e
        | .ok msgs => .ok (⟨basePath ++ '/' :: suffixPath⟩ :: msgs)

/-- The WHERE argument the closure binds: the mailbox URL when the filter
mailbox is non-empty. -/
def queryFilter (mq : MailboxQuery) : Option (List Char) :=
  if mq.mailbox.IsEmpty then none else some mq.mailbox.URL

/-- The LIMIT and OFFSET arguments the closure binds when BatchResults > 0:
LIMIT BatchResults, OFFSET batchCount * BatchResults. -/
def queryPage (mq : MailboxQuery) (batchCount : Nat) : Option (Int × Int) :=
  if 0 < mq.batchResults then some (mq.batchResults, (batchCount : Int) * mq.batchResults)
  else none

/-- The row list one invocation of the query closure iterates over, as a
function of the batchCount value at that invocation. -/
def selectedRows (m : Mailboxes) (mq : MailboxQuery) (batchCount : Nat) : List Row :=
  sqlGetMessages m.db (queryFilter mq) (queryPage mq batchCount)

/-- Models one execution of the closure body returned by Mailboxes.Query,
given the value the closed-over batchCount variable has at that
execution. -/
def queryInvoke (m : Mailboxes) (mq : MailboxQuery) (batchCount : Nat) :
    QueryOutcome :=
  resolveRows m.url2path (selectedRows m mq batchCount)

/-- The value of the closed-over batchCount variable at the n-th invocation
of the closure (0-indexed). The source declares var batchCount int, reads
it in the OFFSET computation, and contains no statement that modifies it,
so it still holds its zero value at every invocation. -/
def batchCountAt (n : Nat) : Nat := 0

/-- The n-th invocation (0-indexed) of the closure returned by
Mailboxes.Query. -/
def queryInvocation (m : Mailboxes) (mq : MailboxQuery) (n : Nat) :
    QueryOutcome :=
  queryInvoke m mq (batchCountAt n)

/-! ## Message.Open (mail.go) -/

/-- Outcome of one os.Open call, as the model filesystem reports it: the
file's bytes, a does-not-exist error (os.IsNotExist is true), or any other
I/O error. -/
inductive FileOutcome where
  | content (bytes : List Nat)
  | notExist
  | otherError (code : Nat)
  deriving DecidableEq

/-- The error Message.Open can return with a nil reader: the does-not-exist
error of the second open, or a pass-through I/O error. -/
inductive OpenError where
  | notExistError
  | ioError (code : Nat)
  deriving DecidableEq

/-- Result of Message.Open: the (io.Reader, error) pair of stripEmlx when
an open succeeded, or a nil reader and an error when it did not. -/
inductive OpenResult where
  | opened (r : StripResult)
  | failed (e : OpenError)
  deriving DecidableEq

/-- Models the second half of Message.Open: os.Open of the
".partial.emlx" candidate, reached only after the first open failed with a
does-not-exist error; a success is piped through stripEmlx and any failure
is returned as the call's error. -/
def openEmlxFallback (fs : List Char → FileOutcome) (base : List Char) : OpenResult :=
  match fs (base ++ ".partial.emlx".data) with
  | .content bs => .opened (stripEmlx bs)
  | .notExist => .failed .notExistError
  | .otherError c => .failed (.ioError c)

/-- Models Message.Open (mail.go) against a model filesystem fs mapping a
path to the outcome of os.Open on it: open base + ".emlx"; on success
return stripEmlx of it; if the error is not os.IsNotExist return it at
once; otherwise try base + ".partial.emlx". -/
def messageOpen (fs : List Char → FileOutcome) (msg : Message) : OpenResult :=
  match fs (msg.pathWithoutExtension ++ ".emlx".data) with
  | .content bs => .opened (stripEmlx bs)
  | .otherError c => .failed (.ioError c)
  | .notExist => openEmlxFallback fs msg.pathWithoutExtension

/-! ## Concrete instances used by witnesses and counterexamples -/

/-- Five-row index database with pairwise distinct, descending received
times, used to exercise pagination. -/
def dbPagination : List Row :=
  [⟨"1000001".data, "imap://u/a".data, 50⟩,
   ⟨"1000002".data, "imap://u/a".data, 40⟩,
   ⟨"1000003".data, "imap://u/a".data, 30⟩,
   ⟨"1000004".data, "imap://u/a".data, 20⟩,
   ⟨"1000005".data, "imap://u/a".data, 10⟩]

/-- Mailboxes value over dbPagination whose path map resolves the one
mailbox URL of the database. -/
def mailboxesPagination : Mailboxes :=
  ⟨[], [("u/a".data, "/base".data)], dbPagination⟩

/-- An unfiltered query (empty mailbox) with BatchResults = 3. -/
def queryBatch3 : MailboxQuery :=
  ⟨⟨[], none⟩, 3⟩

/-- The directory-tree shape of the marker-file scenario: a root whose only
child X holds the marker file Info.plist and one data folder. -/
def markerScenarioTree (rootName x yMbox : List Char) : FSEntry :=
  .dir rootName [.dir x [.file "Info.plist".data, .dir yMbox []]]

/-- The marker scenario instantiated with X = A and data folder B.mbox
under a walk root of /r/. -/
def treeMboxChild : FSEntry :=
  markerScenarioTree "r".data "A".data "B.mbox".data

/-- A marked directory B whose direct child is also named B. -/
def treeSameNameChild : FSEntry :=
  .dir "r".data [.dir "B".data [.file "Info.plist".data, .dir "B".data []]]

/-- A single resolvable row for the unresolved-path witness. -/
def rowUnresolved : Row :=
  ⟨"1000001".data, "imap://u/a".data, 50⟩

/-- Mailboxes value whose path map is empty, so every row misses. -/
def mailboxesUnresolved : Mailboxes :=
  ⟨[], [], [rowUnresolved]⟩

/-- Model filesystem in which opening the ".emlx" candidate fails with an
I/O error other than does-not-exist. -/
def fsOtherError : List Char → FileOutcome :=
  fun p => if p = "/m/base.emlx".data then .otherError 5 else .notExist

/-! ## Shared helper lemmas -/

/-- An identifier of length at least three starts with three characters. -/
theorem exists_three_chars_of_length {rowid : List Char} (h : 3 ≤ rowid.length) :
    ∃ c0 c1 c2 rest, rowid = c0 :: c1 :: c2 :: rest := by
  cases rowid with
  | nil => simp at h
  | cons a t =>
    cases t with
    | nil => simp at h
    | cons b t2 =>
      cases t2 with
      | nil => simp at h
      | cons c t3 => exact ⟨a, b, c, t3, rfl⟩

/-- emlPathFromROWID succeeds on any identifier with at least three
characters. -/
theorem emlPathFromROWID_isSome {rowid : List Char} (h : 3 ≤ rowid.length) :
    ∃ p, emlPathFromROWID rowid = some p := by
  obtain ⟨c0, c1, c2, rest, rfl⟩ := exists_three_chars_of_length h
  exact ⟨c2 :: '/' :: c1 :: '/' :: c0 :: ("/Messages/".data ++ (c0 :: c1 :: c2 :: rest)), rfl⟩

/-! ## C5: the shard path is built from the characters at positions 2, 1, 0 -/

/-- C5: for every row-identifier string of at least 3 characters,
emlPathFromROWID returns the path whose three nested directory levels are,
outermost to innermost, the characters at positions 2, 1 and 0 of the
identifier, followed by the fixed "Messages" segment and the identifier
itself; the result is a function of the string's characters alone. -/
theorem emlPathFromROWID_shard_chars (rowid : List Char) (h : 3 ≤ rowid.length) :
    emlPathFromROWID rowid =
      some (rowid.get ⟨2, by omega⟩ :: '/' :: rowid.get ⟨1, by omega⟩ :: '/' ::
        rowid.get ⟨0, by omega⟩ :: ("/Messages/".data ++ rowid)) := by
  obtain ⟨c0, c1, c2, rest, rfl⟩ := exists_three_chars_of_length h
  rfl

/-- C5 witness: the identifier "0447630" maps to
"4/4/0/Messages/0447630". -/
theorem emlPathFromROWID_shard_chars_witness :
    3 ≤ "0447630".data.length ∧
      emlPathFromROWID "0447630".data = some "4/4/0/Messages/0447630".data :=
  ⟨by decide, (emlPathFromROWID_shard_chars "0447630".data (by decide)).trans (by decide)⟩

/-! ## C10: the missing length guard -/

/-- C10: emlPathFromROWID indexes the identifier at positions 0, 1 and 2
with no length guard: on every identifier shorter than 3 characters the
indexing panics (the error branch of the embedding), and on every
identifier of length at least 3 the operation succeeds. -/
theorem emlPathFromROWID_length_guard (rowid : List Char) :
    (rowid.length < 3 → emlPathFromROWID rowid = none) ∧
    (3 ≤ rowid.length → ∃ p, emlPathFromROWID rowid = some p) := by
  constructor
  · intro h
    cases rowid with
    | nil => rfl
    | cons a t =>
      cases t with
      | nil => rfl
      | cons b t2 =>
        cases t2 with
        | nil => rfl
        | cons c t3 => simp only [List.length_cons] at h; omega
  · intro h
    exact emlPathFromROWID_isSome h

/-- C10 witness: the two-character identifier "42" reaches the panic
branch. -/
theorem emlPathFromROWID_length_guard_witness :
    "42".data.length < 3 ∧ emlPathFromROWID "42".data = none :=
  ⟨by decide, (emlPathFromROWID_length_guard "42".data).1 (by decide)⟩

/-! ## C2 and C7: the framing codec -/

/-- The scanner token of a stream whose first line contains no newline
byte is exactly that line. -/
theorem takeWhile_append_newline (L rest : List Nat) (h : 10 ∉ L) :
    (L ++ 10 :: rest).takeWhile (fun b => b != 10) = L := by
  induction L with
  | nil => simp
  | cons a t ih =>
    have ha : a ≠ 10 := fun e => h (by simp [e])
    have ht : 10 ∉ t := fun hm => h (List.mem_cons_of_mem a hm)
    simp [List.takeWhile_cons, ha, ih ht]

/-- Dropping the first line and its newline terminator leaves the
remainder of the stream. -/
theorem drop_append_succ (L rest : List Nat) :
    (L ++ 10 :: rest).drop (L.length + 1) = rest := by
  induction L with
  | nil => rfl
  | cons a t ih =>
    simpa only [List.cons_append, List.length_cons, List.drop_succ_cons] using ih

/-- On a stream of the form line ++ newline ++ rest, where the line holds
no newline and no trailing carriage return, the scanned first line is the
line itself. -/
theorem scanFirstLine_eq (L rest : List Nat) (h10 : 10 ∉ L)
    (hcr : L.getLast? ≠ some 13) :
    scanFirstLine (L ++ 10 :: rest) = L := by
  unfold scanFirstLine
  rw [takeWhile_append_newline L rest h10]
  unfold dropCR
  rw [if_neg hcr]

/-- C2: for every framed input whose first line L (free of newline bytes
and not ending in a carriage return) parses, after space-trimming, as the
integer n, stripEmlx returns the reader that starts at byte offset
L.length + 1 of the stream and is limited to n bytes: the payload is the
take of n bytes from that offset, it equals the corresponding prefix of
the remainder, its length never exceeds n, and when the remainder holds at
least n bytes (trailing bytes beyond the declared length included) the
payload length is exactly n. -/
theorem stripEmlx_framed (L rest : List Nat) (n : Int)
    (h10 : 10 ∉ L) (hcr : L.getLast? ≠ some 13)
    (hparse : goAtoi (trimSpaces L) = some n) :
    stripEmlx (L ++ 10 :: rest) =
      .stripped (((L ++ 10 :: rest).drop (L.length + 1)).take n.toNat) ∧
    ((L ++ 10 :: rest).drop (L.length + 1)).take n.toNat = rest.take n.toNat ∧
    (rest.take n.toNat).length ≤ n.toNat ∧
    (n.toNat ≤ rest.length → (rest.take n.toNat).length = n.toNat) := by
  have hne : L ++ 10 :: rest ≠ [] := by cases L <;> simp
  have hfl := scanFirstLine_eq L rest h10 hcr
  refine ⟨?_, congrArg (List.take n.toNat) (drop_append_succ L rest), ?_, ?_⟩
  · unfold stripEmlx
    rw [if_neg hne]
    simp only [hfl, hparse]
  · rw [List.length_take]
    exact Nat.min_le_left _ _
  · intro hle
    rw [List.length_take]
    omega

/-- C2 witness: the line "120" followed by 120 payload bytes and 40
trailer bytes yields exactly the 120 payload bytes. -/
theorem stripEmlx_framed_witness :
    (10 ∉ ([49, 50, 48] : List Nat)) ∧
    goAtoi (trimSpaces [49, 50, 48]) = some 120 ∧
    stripEmlx ([49, 50, 48] ++ 10 :: (List.replicate 120 65 ++ List.replicate 40 66)) =
      .stripped (List.replicate 120 65) := by
  refine ⟨by decide, by decide, ?_⟩
  have h := stripEmlx_framed [49, 50, 48] (List.replicate 120 65 ++ List.replicate 40 66) 120
    (by decide) (by decide) (by decide)
  rw [h.1, h.2.1]
  decide

/-- C7: on a nonempty stream whose first line does not parse as an
integer, stripEmlx returns the parse error together with the original,
unstripped stream (the fallbackParseError constructor carries the stream
the source returns as the non-nil reader r). -/
theorem stripEmlx_parse_failure (s : List Nat) (hne : s ≠ [])
    (hparse : goAtoi (trimSpaces (scanFirstLine s)) = none) :
    stripEmlx s = .fallbackParseError s := by
  unfold stripEmlx
  rw [if_neg hne]
  simp only [hparse]

/-- C7 witness: the stream "abc\nx" fails to parse and comes back intact
as the fallback reader. -/
theorem stripEmlx_parse_failure_witness :
    ([97, 98, 99, 10, 120] : List Nat) ≠ [] ∧
    goAtoi (trimSpaces (scanFirstLine [97, 98, 99, 10, 120])) = none ∧
    stripEmlx [97, 98, 99, 10, 120] = .fallbackParseError [97, 98, 99, 10, 120] :=
  ⟨by decide, by decide, stripEmlx_parse_failure _ (by decide) (by decide)⟩

/-! ## C9: extension fallback in Message.Open -/

/-- C9: opening a message tries the ".emlx" candidate first; a successful
open is piped through stripEmlx, an I/O error other than does-not-exist is
returned at once without consulting the ".partial.emlx" candidate, and
only a does-not-exist failure falls through to the second candidate. -/
theorem messageOpen_extension_fallback (fs : List Char → FileOutcome) (msg : Message) :
    (∀ bs, fs (msg.pathWithoutExtension ++ ".emlx".data) = .content bs →
        messageOpen fs msg = .opened (stripEmlx bs)) ∧
    (∀ c, fs (msg.pathWithoutExtension ++ ".emlx".data) = .otherError c →
        messageOpen fs msg = .failed (.ioError c)) ∧
    (fs (msg.pathWithoutExtension ++ ".emlx".data) = .notExist →
        messageOpen fs msg = openEmlxFallback fs msg.pathWithoutExtension) := by
  refine ⟨fun bs h => ?_, fun c h => ?_, fun h => ?_⟩ <;>
    · unfold messageOpen
      rw [h]

/-- C9 witness: a filesystem failing the first open with a non-not-exist
error makes messageOpen return that error immediately. -/
theorem messageOpen_extension_fallback_witness :
    fsOtherError ("/m/base".data ++ ".emlx".data) = .otherError 5 ∧
    messageOpen fsOtherError ⟨"/m/base".data⟩ = .failed (.ioError 5) :=
  ⟨by decide, (messageOpen_extension_fallback fsOtherError ⟨"/m/base".data⟩).2.1 5 (by decide)⟩

/-! ## C1: pagination -/

/-- C1 (code bug): the closed-over batchCount is never incremented, so the
closure computes OFFSET 0 at every invocation: with BatchResults = 3 over
the five-row database, the first invocation returns the newest three rows
and the second invocation returns those same three rows again instead of
the remaining two. -/
theorem query_pagination_offset_never_advances :
    batchCountAt 0 = 0 ∧ batchCountAt 1 = 0 ∧
    (sqlGetMessages mailboxesPagination.db none none).length = 5 ∧
    queryInvocation mailboxesPagination queryBatch3 0 =
      .ok [⟨"/base/0/0/1/Messages/1000001".data⟩,
           ⟨"/base/0/0/1/Messages/1000002".data⟩,
           ⟨"/base/0/0/1/Messages/1000003".data⟩] ∧
    queryInvocation mailboxesPagination queryBatch3 1 =
      queryInvocation mailboxesPagination queryBatch3 0 ∧
    queryInvocation mailboxesPagination queryBatch3 1 ≠
      .ok [⟨"/base/0/0/1/Messages/1000004".data⟩,
           ⟨"/base/0/0/1/Messages/1000005".data⟩] :=
  ⟨rfl, rfl, by decide, by decide, by decide, by decide⟩

/-! ## C8: descending order by received time -/

/-- C8: for every database, query spec (filtered or not, paginated or not)
and batch counter, the row list a query invocation iterates over is sorted
by received time in descending order, and the invocation result is exactly
the resolution of that row list. -/
theorem query_rows_sorted_desc (m : Mailboxes) (mq : MailboxQuery) (bc : Nat) :
    (selectedRows m mq bc).Pairwise rowDescByDate ∧
    queryInvoke m mq bc = resolveRows m.url2path (selectedRows m mq bc) := by
  constructor
  · have hs : (List.insertionSort rowDescByDate
        (match queryFilter mq with
          | some u => m.db.filter (fun r => r.url == u)
          | none => m.db)).Pairwise rowDescByDate :=
      List.sorted_insertionSort rowDescByDate _
    simp only [selectedRows, sqlGetMessages]
    cases hp : queryPage mq bc with
    | none => exact hs
    | some p =>
      obtain ⟨limit, offset⟩ := p
      exact hs.sublist ((List.take_sublist _ _).trans (List.drop_sublist _ _))
  · rfl

/-! ## C6: an unresolved mailbox path aborts the whole call -/

/-- Resolution of a row list that contains a row whose URL misses the path
map ends in the unmatched-mailbox-path error, with no partial result. -/
theorem resolveRows_unresolved (u2p : List (List Char × List Char)) (rows : List Row)
    (hids : ∀ r ∈ rows, 3 ≤ r.rowid.length)
    (hbad : ∃ r ∈ rows, mapLookup u2p (hostPlusPath r.url) = none) :
    ∃ rel, mapLookup u2p rel = none ∧
      resolveRows u2p rows = .error (.unresolvedMailboxPath rel) := by
  induction rows with
  | nil =>
    obtain ⟨r, hr, _⟩ := hbad
    exact absurd hr (List.not_mem_nil r)
  | cons r rest ih =>
    cases hlook : mapLookup u2p (hostPlusPath r.url) with
    | none =>
      refine ⟨hostPlusPath r.url, hlook, ?_⟩
      unfold resolveRows
      rw [hlook]
    | some basePath =>
      obtain ⟨p, hp⟩ := emlPathFromROWID_isSome (hids r (List.mem_cons_self r rest))
      obtain ⟨bad, hbadmem, hbadlook⟩ := hbad
      have hbadrest : bad ∈ rest := by
        rcases List.mem_cons.mp hbadmem with h | h
        · rw [h] at hbadlook
          simp [hbadlook] at hlook
        · exact h
      obtain ⟨rel, hrel, herr⟩ :=
        ih (fun x hx => hids x (List.mem_cons_of_mem r hx)) ⟨bad, hbadrest, hbadlook⟩
      refine ⟨rel, hrel, ?_⟩
      unfold resolveRows
      rw [hlook, hp, herr]

/-- C6: whenever any selected row's URL has no entry in the path map under
its authority-plus-path key, the whole query invocation returns the
unresolved-mailbox-path error and no partial result list (rows whose
identifiers are long enough to shard are assumed, as a shorter identifier
panics before the error could be produced). -/
theorem queryInvoke_unresolved_fatal (m : Mailboxes) (mq : MailboxQuery) (bc : Nat)
    (hids : ∀ r ∈ selectedRows m mq bc, 3 ≤ r.rowid.length)
    (hbad : ∃ r ∈ selectedRows m mq bc,
        mapLookup m.url2path (hostPlusPath r.url) = none) :
    ∃ rel, mapLookup m.url2path rel = none ∧
      queryInvoke m mq bc = .error (.unresolvedMailboxPath rel) :=
  resolveRows_unresolved m.url2path (selectedRows m mq bc) hids hbad

/-- C6 witness: with an empty path map, the single-row query returns the
unresolved-mailbox-path error. -/
theorem queryInvoke_unresolved_fatal_witness :
    (rowUnresolved ∈ selectedRows mailboxesUnresolved queryBatch3 0 ∧
      mapLookup mailboxesUnresolved.url2path (hostPlusPath rowUnresolved.url) = none) ∧
    ∃ rel, mapLookup mailboxesUnresolved.url2path rel = none ∧
      queryInvoke mailboxesUnresolved queryBatch3 0 = .error (.unresolvedMailboxPath rel) :=
  ⟨⟨by decide, by decide⟩,
    queryInvoke_unresolved_fatal mailboxesUnresolved queryBatch3 0 (by decide)
      ⟨rowUnresolved, by decide, by decide⟩⟩

/-! ## C4: the direct-child matching rule -/

/-- C4 counterexample: the visited directory /r/B/B is the direct child of
the marked directory /r/B (removing exactly the last path segment yields
the marked path, and the marked path is a prefix), yet no map entry is
recorded, because the code removes every occurrence of "/" + d.Name() from
the visited path, turning /r/B/B into /r, which differs from the marked
path; the same shape embedded in a full walk also produces an empty map. -/
theorem recordMatches_direct_child_missed :
    ("/r/B/B".data = "/r/B".data ++ '/' :: "B".data) ∧
    goHasPrefix "/r/B/B".data "/r/B".data = true ∧
    recordMatches "/r/".data "/r/B/B".data "B".data ["/r/B".data] [] = [] ∧
    gatherMboxPaths "/r/".data treeSameNameChild = [] := by decide

/-- Looking up a key that an insert did not touch sees the older map. -/
theorem mapLookup_insert_ne (m : List (List Char × List Char)) (k1 v k : List Char)
    (h : k1 ≠ k) : mapLookup (mapInsert m k1 v) k = mapLookup m k := by
  show (if k1 = k then some v else mapLookup m k) = mapLookup m k
  rw [if_neg h]

/-- Looking up the key an insert just wrote sees the written value. -/
theorem mapLookup_insert_self (m : List (List Char × List Char)) (k v : List Char) :
    mapLookup (mapInsert m k v) k = some v := by
  show (if k = k then some v else mapLookup m k) = some v
  rw [if_pos rfl]

/-- Once the paths map binds a key to the visited directory's Data path,
the rest of the marked-directory loop preserves that binding: any later
overwrite of the same key writes the identical value, which depends only
on the visited directory. -/
theorem recordMatches_preserve (rootPath dirPath dirName : List Char) :
    ∀ (marked : List (List Char)) (paths : List (List Char × List Char)) (k : List Char),
      mapLookup paths k = some (dirPath ++ '/' :: "Data".data) →
      mapLookup (recordMatches rootPath dirPath dirName marked paths) k =
        some (dirPath ++ '/' :: "Data".data) := by
  intro marked
  induction marked with
  | nil => exact fun paths k h => h
  | cons q rest ih =>
    intro paths k h
    unfold recordMatches
    by_cases hq : goHasPrefix dirPath q = true ∧ goReplace dirPath ('/' :: dirName) [] = q
    · rw [if_pos hq]
      apply ih
      by_cases hk : filePathToURL rootPath q = k
      · rw [hk, mapLookup_insert_self]
      · rw [mapLookup_insert_ne _ _ _ _ hk]
        exact h
    · rw [if_neg hq]
      exact ih paths k h

/-- A marked directory that satisfies the matching condition ends up
recorded under its filePathToURL key with the visited path plus "/Data"
as value. -/
theorem recordMatches_hit (rootPath dirPath dirName p : List Char)
    (hcond : goHasPrefix dirPath p = true ∧ goReplace dirPath ('/' :: dirName) [] = p) :
    ∀ (marked : List (List Char)) (paths : List (List Char × List Char)),
      p ∈ marked →
      mapLookup (recordMatches rootPath dirPath dirName marked paths)
        (filePathToURL rootPath p) = some (dirPath ++ '/' :: "Data".data) := by
  intro marked
  induction marked with
  | nil => exact fun paths hp => absurd hp (List.not_mem_nil p)
  | cons q rest ih =>
    intro paths hp
    unfold recordMatches
    rcases List.mem_cons.mp hp with hpq | hprest
    · subst hpq
      rw [if_pos hcond]
      exact recordMatches_preserve _ _ _ _ _ _ (mapLookup_insert_self _ _ _)
    · by_cases hq : goHasPrefix dirPath q = true ∧ goReplace dirPath ('/' :: dirName) [] = q
      · rw [if_pos hq]
        exact ih _ hprest
      · rw [if_neg hq]
        exact ih _ hprest

/-- A key matched by no marked directory is left untouched by the loop. -/
theorem recordMatches_miss (rootPath dirPath dirName k : List Char) :
    ∀ (marked : List (List Char)) (paths : List (List Char × List Char)),
      (∀ p ∈ marked, ¬(goHasPrefix dirPath p = true ∧
          goReplace dirPath ('/' :: dirName) [] = p ∧ filePathToURL rootPath p = k)) →
      mapLookup (recordMatches rootPath dirPath dirName marked paths) k =
        mapLookup paths k := by
  intro marked
  induction marked with
  | nil => exact fun paths _ => rfl
  | cons q rest ih =>
    intro paths hk
    unfold recordMatches
    by_cases hq : goHasPrefix dirPath q = true ∧ goReplace dirPath ('/' :: dirName) [] = q
    · rw [if_pos hq]
      have hne : filePathToURL rootPath q ≠ k := by
        intro he
        exact hk q (List.mem_cons_self q rest) ⟨hq.1, hq.2, he⟩
      rw [ih (mapInsert paths _ _) (fun p hp => hk p (List.mem_cons_of_mem q hp)),
        mapLookup_insert_ne _ _ _ _ hne]
    · rw [if_neg hq]
      exact ih paths (fun p hp => hk p (List.mem_cons_of_mem q hp))

/-- C4 amended: during the walk, for every visited directory and every
already-marked directory, a map entry is recorded exactly when the marked
path is a string prefix of the visited path and removing every occurrence
of the separator followed by the visited directory's name from the visited
path yields exactly the marked path; the recorded value is the visited
path plus "/Data", and keys for which no marked directory matches are left
untouched. -/
theorem recordMatches_spec (rootPath dirPath dirName : List Char)
    (marked : List (List Char)) (paths : List (List Char × List Char)) :
    (∀ p ∈ marked,
      goHasPrefix dirPath p = true ∧ goReplace dirPath ('/' :: dirName) [] = p →
        mapLookup (recordMatches rootPath dirPath dirName marked paths)
          (filePathToURL rootPath p) = some (dirPath ++ '/' :: "Data".data)) ∧
    (∀ k,
      (∀ p ∈ marked, ¬(goHasPrefix dirPath p = true ∧
          goReplace dirPath ('/' :: dirName) [] = p ∧ filePathToURL rootPath p = k)) →
        mapLookup (recordMatches rootPath dirPath dirName marked paths) k =
          mapLookup paths k) :=
  ⟨fun p hp hcond => recordMatches_hit rootPath dirPath dirName p hcond marked paths hp,
   fun k hk => recordMatches_miss rootPath dirPath dirName k marked paths hk⟩

/-- C4 amended witness: the marked directory /r/A is a prefix of the
visited directory /r/A/B and removing every occurrence of /B yields /r/A,
so the loop records the key of /r/A with value /r/A/B/Data. -/
theorem recordMatches_spec_witness :
    mapLookup (recordMatches "/r/".data "/r/A/B".data "B".data ["/r/A".data] [])
      (filePathToURL "/r/".data "/r/A".data) = some ("/r/A/B".data ++ '/' :: "Data".data) :=
  (recordMatches_spec "/r/".data "/r/A/B".data "B".data ["/r/A".data] []).1
    "/r/A".data (by decide) (by decide)

/-! ## C3: replacement lemmas and the marker-file scenario -/

/-- Unconditional nil equation of the fueled replacement. -/
theorem goReplaceFuel_nilArg (old new : List Char) (fuel : Nat) :
    goReplaceFuel old new fuel [] = [] := by
  cases fuel <;> rfl

/-- Unconditional cons equation of the fueled replacement. -/
theorem goReplaceFuel_succ_cons (old new : List Char) (f : Nat) (c : Char) (rest : List Char) :
    goReplaceFuel old new (f + 1) (c :: rest) =
      if old ≠ [] ∧ old.isPrefixOf (c :: rest) then
        new ++ goReplaceFuel old new f ((c :: rest).drop old.length)
      else c :: goReplaceFuel old new f rest := rfl

/-- A string in which the pattern occurs at no position is left unchanged
by the fueled replacement, for any sufficient fuel. -/
theorem goReplaceFuel_no_occur (old new : List Char) (hne : old ≠ []) :
    ∀ (fuel : Nat) (s : List Char), s.length ≤ fuel →
      (∀ i < s.length, old.isPrefixOf (s.drop i) = false) →
      goReplaceFuel old new fuel s = s := by
  intro fuel
  induction fuel with
  | zero =>
    intro s hs _
    cases s with
    | nil => rfl
    | cons c t => simp at hs
  | succ f ih =>
    intro s hs hocc
    cases s with
    | nil => rfl
    | cons c t =>
      have hpre : old.isPrefixOf (c :: t) = false := by simpa using hocc 0 (by simp)
      rw [goReplaceFuel_succ_cons, if_neg (fun hc => by simp [hpre] at hc)]
      have ht : goReplaceFuel old new f t = t := by
        apply ih t (by simpa using hs)
        intro i hi
        simpa using hocc (i + 1) (by simpa using hi)
      rw [ht]

/-- When the pattern occurs exactly once, as the final suffix, the fueled
replacement rewrites it and keeps the prefix, for any sufficient fuel. -/
theorem goReplaceFuel_append_right (old new : List Char) (hne : old ≠ []) :
    ∀ (fuel : Nat) (a : List Char), (a ++ old).length ≤ fuel →
      (∀ i < a.length, old.isPrefixOf ((a ++ old).drop i) = false) →
      goReplaceFuel old new fuel (a ++ old) = a ++ new := by
  intro fuel
  induction fuel with
  | zero =>
    intro a ha _
    exfalso
    have h1 : 0 < old.length := List.length_pos.mpr hne
    rw [List.length_append] at ha
    omega
  | succ f ih =>
    intro a ha hocc
    cases a with
    | nil =>
      simp only [List.nil_append]
      cases old with
      | nil => exact absurd rfl hne
      | cons oc ot =>
        rw [goReplaceFuel_succ_cons,
          if_pos ⟨hne, List.isPrefixOf_iff_prefix.mpr (List.prefix_refl _)⟩,
          List.drop_length, goReplaceFuel_nilArg, List.append_nil]
    | cons c a2 =>
      have hpre : old.isPrefixOf (c :: (a2 ++ old)) = false := by
        simpa using hocc 0 (by simp)
      rw [List.cons_append, goReplaceFuel_succ_cons,
        if_neg (fun hc => by simp [hpre] at hc)]
      have hrec : goReplaceFuel old new f (a2 ++ old) = a2 ++ new := by
        apply ih a2 (by simpa using ha)
        intro i hi
        simpa using hocc (i + 1) (by simpa using hi)
      rw [hrec]
      rfl

/-- The fueled replacement removes a pattern standing at the very front
and continues after it. -/
theorem goReplaceFuel_head_match (old new : List Char) (hne : old ≠ []) (f : Nat)
    (s : List Char) (hpre : old.isPrefixOf s = true) (hs : s ≠ []) :
    goReplaceFuel old new (f + 1) s = new ++ goReplaceFuel old new f (s.drop old.length) := by
  cases s with
  | nil => exact absurd rfl hs
  | cons c t => rw [goReplaceFuel_succ_cons, if_pos ⟨hne, hpre⟩]

/-- strings.Replace leaves a string without any occurrence of the pattern
unchanged. -/
theorem goReplace_no_occur (s old new : List Char) (hne : old ≠ [])
    (h : ∀ i < s.length, old.isPrefixOf (s.drop i) = false) :
    goReplace s old new = s := by
  unfold goReplace
  rw [if_neg hne]
  exact goReplaceFuel_no_occur old new hne s.length s (Nat.le_refl _) h

/-- strings.Replace on a string that ends with its only occurrence of the
pattern replaces exactly that final occurrence. -/
theorem goReplace_append_right (a old new : List Char) (hne : old ≠ [])
    (h : ∀ i < a.length, old.isPrefixOf ((a ++ old).drop i) = false) :
    goReplace (a ++ old) old new = a ++ new := by
  unfold goReplace
  rw [if_neg hne]
  exact goReplaceFuel_append_right old new hne (a ++ old).length a (Nat.le_refl _) h

/-- strings.Replace on a string that starts with its only occurrence of
the pattern replaces exactly that leading occurrence. -/
theorem goReplace_strip_leading (old b new : List Char) (hne : old ≠ [])
    (h : ∀ i < b.length, old.isPrefixOf (b.drop i) = false) :
    goReplace (old ++ b) old new = new ++ b := by
  unfold goReplace
  rw [if_neg hne]
  have h1 : 0 < old.length := List.length_pos.mpr hne
  obtain ⟨f, hf⟩ : ∃ f, (old ++ b).length = f + 1 :=
    ⟨(old ++ b).length - 1, by simp [List.length_append]; omega⟩
  rw [hf, goReplaceFuel_head_match old new hne f (old ++ b)
      (List.isPrefixOf_iff_prefix.mpr (List.prefix_append old b))
      (by cases old with | nil => exact absurd rfl hne | cons oc ot => simp),
    List.drop_left]
  have hb : goReplaceFuel old new f b = b := by
    apply goReplaceFuel_no_occur old new hne f b ?_ h
    rw [List.length_append] at hf
    omega
  rw [hb]

/-- filePathToURL of the walk root followed by a relative part that never
contains the root path is the relative part with every ".mbox" removed. -/
theorem filePathToURL_append (rootPath x : List Char) (hne : rootPath ≠ [])
    (h : ∀ i < x.length, rootPath.isPrefixOf (x.drop i) = false) :
    filePathToURL rootPath (rootPath ++ x) = goReplace x ".mbox".data [] := by
  unfold filePathToURL
  rw [goReplace_strip_leading rootPath x [] hne h, List.nil_append]

/-- Joining onto a parent that ends in the separator collapses it. -/
theorem childPath_slash (parent childName : List Char) (h : parent.getLast? = some '/') :
    childPath parent childName = parent ++ childName := by
  unfold childPath
  rw [if_pos h]

/-- Joining onto a parent that does not end in the separator inserts
one. -/
theorem childPath_no_slash (parent childName : List Char) (h : parent.getLast? ≠ some '/') :
    childPath parent childName = parent ++ '/' :: childName := by
  unfold childPath
  rw [if_neg h]

/-- The walk leaves the state unchanged once the worklist is empty. -/
theorem walkWork_nilWork (rootPath : List Char) (fuel : Nat) (st : WalkState) :
    walkWork rootPath fuel [] st = st := by
  cases fuel <;> rfl

/-- A popped file entry is ignored. -/
theorem walkWork_file (rootPath p nm : List Char) (fuel : Nat)
    (rest : List (List Char × FSEntry)) (st : WalkState) :
    walkWork rootPath (fuel + 1) ((p, .file nm) :: rest) st =
      walkWork rootPath fuel rest st := rfl

/-- A popped directory that is not one of the two reserved names is
visited and its children are pushed. -/
theorem walkWork_dir (rootPath dirPath nm : List Char) (children : List FSEntry)
    (fuel : Nat) (rest : List (List Char × FSEntry)) (st : WalkState)
    (h : ¬(nm = "Data".data ∨ nm = "MailData".data)) :
    walkWork rootPath (fuel + 1) ((dirPath, .dir nm children) :: rest) st =
      walkWork rootPath fuel
        (children.map (fun c => (childPath dirPath c.entryName, c)) ++ rest)
        (visitDir rootPath dirPath nm children st) := by
  show (if nm = "Data".data ∨ nm = "MailData".data then walkWork rootPath fuel rest st
    else walkWork rootPath fuel
      (children.map (fun c => (childPath dirPath c.entryName, c)) ++ rest)
      (visitDir rootPath dirPath nm children st)) = _
  rw [if_neg h]

/-- C3 counterexample: in the tree with the marker at /r/A/Info.plist and
the data folder /r/A/B.mbox, the resolver maps the key A to
/r/A/B.mbox/Data (the data folder's name with its ".mbox" intact, plus
/Data), not to /r/A/B/Data as the claim states. -/
theorem gatherMboxPaths_value_keeps_mbox :
    mapLookup (gatherMboxPaths "/r/".data treeMboxChild) "A".data =
      some "/r/A/B.mbox/Data".data ∧
    mapLookup (gatherMboxPaths "/r/".data treeMboxChild) "A".data ≠
      some "/r/A/B/Data".data := by decide

/-- C3 amended: for a directory tree with the marker file at
root/X/Info.plist and a sibling data folder root/X/Y.mbox, the resolver
maps the logical key X (with every ".mbox" occurrence stripped) to the
physical directory root/X/Y.mbox/Data — the data folder's own name, its
".mbox" suffix included, plus the /Data segment. The hypotheses pin down
the scenario: the walk root ends in the separator, none of the names is
one of the two reserved skip names, X is a nonempty separator-free name
other than Info.plist, the root path does not occur inside X, and the
separator followed by the data folder's name occurs in the visited path
only as its final segment. -/
theorem gatherMboxPaths_marker_scenario
    (rootPath rootName x yMbox : List Char)
    (hroot : rootPath.getLast? = some '/')
    (hrootName : ¬(rootName = "Data".data ∨ rootName = "MailData".data))
    (hx : ¬(x = "Data".data ∨ x = "MailData".data))
    (hyM : ¬(yMbox = "Data".data ∨ yMbox = "MailData".data))
    (hxip : x ≠ "Info.plist".data)
    (hxne : x ≠ [])
    (hxslash : '/' ∉ x)
    (hrx : ∀ i < x.length, rootPath.isPrefixOf (x.drop i) = false)
    (hocc : ∀ i < (rootPath ++ x).length,
        ('/' :: yMbox).isPrefixOf (((rootPath ++ x) ++ '/' :: yMbox).drop i) = false) :
    gatherMboxPaths rootPath (markerScenarioTree rootName x yMbox) =
      [(goReplace x ".mbox".data [],
        ((rootPath ++ x) ++ '/' :: yMbox) ++ '/' :: "Data".data)] := by
  have hrne : rootPath ≠ [] := by
    intro e
    rw [e] at hroot
    simp at hroot
  have hxlast : (rootPath ++ x).getLast? ≠ some '/' := by
    rw [List.getLast?_append]
    cases hc : x.getLast? with
    | none => exact absurd (List.getLast?_eq_none_iff.mp hc) hxne
    | some c =>
      have hcx : c ∈ x := List.mem_of_getLast?_eq_some hc
      rw [Option.or_some]
      intro h
      have hc7 : c = '/' := by injection h
      rw [hc7] at hcx
      exact hxslash hcx
  have hcond1 : goHasPrefix ((rootPath ++ x) ++ '/' :: yMbox) (rootPath ++ x) = true := by
    unfold goHasPrefix
    exact List.isPrefixOf_iff_prefix.mpr (List.prefix_append _ _)
  have hcond2 : goReplace ((rootPath ++ x) ++ '/' :: yMbox) ('/' :: yMbox) [] = rootPath ++ x := by
    have h := goReplace_append_right (rootPath ++ x) ('/' :: yMbox) [] (by simp) hocc
    simpa using h
  have hv1 : visitDir rootPath rootPath rootName
      [.dir x [.file "Info.plist".data, .dir yMbox []]] ⟨[], []⟩ = ⟨[], []⟩ := by
    unfold visitDir
    have hb : hasEntryNamed [FSEntry.dir x [.file "Info.plist".data, .dir yMbox []]]
        "Info.plist".data = false := by
      simp [hasEntryNamed, FSEntry.entryName]
      exact hxip
    rw [hb]
    rfl
  have hv2 : visitDir rootPath (rootPath ++ x) x [.file "Info.plist".data, .dir yMbox []]
      ⟨[], []⟩ = ⟨[], [rootPath ++ x]⟩ := by
    unfold visitDir
    have hb : hasEntryNamed [FSEntry.file "Info.plist".data, FSEntry.dir yMbox []]
        "Info.plist".data = true := by
      simp [hasEntryNamed, FSEntry.entryName]
    rw [hb]
    rfl
  have hv3 : visitDir rootPath ((rootPath ++ x) ++ '/' :: yMbox) yMbox [] ⟨[], [rootPath ++ x]⟩ =
      ⟨[(goReplace x ".mbox".data [],
          ((rootPath ++ x) ++ '/' :: yMbox) ++ '/' :: "Data".data)],
        [rootPath ++ x]⟩ := by
    unfold visitDir
    show (⟨recordMatches rootPath ((rootPath ++ x) ++ '/' :: yMbox) yMbox [rootPath ++ x] [],
        [rootPath ++ x]⟩ : WalkState) = _
    unfold recordMatches
    rw [if_pos ⟨hcond1, hcond2⟩]
    rw [filePathToURL_append rootPath x hrne hrx]
    rfl
  simp only [gatherMboxPaths, markerScenarioTree]
  rw [show (FSEntry.dir rootName [FSEntry.dir x [FSEntry.file "Info.plist".data,
      FSEntry.dir yMbox []]]).entryCount = 4 from rfl]
  rw [show (4 : Nat) = 3 + 1 from rfl,
    walkWork_dir rootPath rootPath rootName
      [.dir x [.file "Info.plist".data, .dir yMbox []]] 3 [] ⟨[], []⟩ hrootName]
  rw [hv1]
  simp only [List.map_cons, List.map_nil, List.append_nil, FSEntry.entryName]
  rw [childPath_slash rootPath x hroot]
  rw [show (3 : Nat) = 2 + 1 from rfl,
    walkWork_dir rootPath (rootPath ++ x) x [.file "Info.plist".data, .dir yMbox []]
      2 [] ⟨[], []⟩ hx]
  rw [hv2]
  simp only [List.map_cons, List.map_nil, List.append_nil, FSEntry.entryName]
  rw [childPath_no_slash (rootPath ++ x) yMbox hxlast]
  rw [show (2 : Nat) = 1 + 1 from rfl, walkWork_file]
  rw [show (1 : Nat) = 0 + 1 from rfl,
    walkWork_dir rootPath ((rootPath ++ x) ++ '/' :: yMbox) yMbox [] 0 []
      ⟨[], [rootPath ++ x]⟩ hyM]
  simp only [List.map_nil, List.nil_append]
  rw [hv3, walkWork_nilWork]

/-- C3 amended witness: the scenario instantiated at root /r/, X = A and
data folder B.mbox maps key A to /r/A/B.mbox/Data. -/
theorem gatherMboxPaths_marker_scenario_witness :
    gatherMboxPaths "/r/".data (markerScenarioTree "r".data "A".data "B.mbox".data) =
      [("A".data, "/r/A/B.mbox/Data".data)] :=
  (gatherMboxPaths_marker_scenario "/r/".data "r".data "A".data "B.mbox".data
    (by decide) (by decide) (by decide) (by decide) (by decide) (by decide) (by decide)
    (by decide) (by decide)).trans (by decide)
